import Mathlib

/-!
Verification of the semantic-review-heatmaps repository: a shallow embedding
of the grid sampler (src/IDscraper_test.py), the deduplicator
(src/backend/data_process.py), the semantic search pipeline
(src/demo/RestaurantSearchEngine.py, src/backend/app.py) and the heatmap
tiler (src/demo/heatmap_service.py), together with theorems settling the
specification claims.  Python floats are modelled as rationals.
-/

namespace SRH

/-! ## Grid sampler (src/IDscraper_test.py) -/

/-- Embeds `meters_to_lat(meters)` of IDscraper_test.py: `meters / 111_320`. -/
def metersToLat (m : ℚ) : ℚ := m / 111320

/-- Embeds `meters_to_lon(meters, latitude)`:
`meters / (111_320 * math.cos(math.radians(latitude)))`; the real-valued
cosine is abstracted as the rational argument `cosv`. -/
def metersToLon (m : ℚ) (cosv : ℚ) : ℚ := m / (111320 * cosv)

/-- The inner `while lon <= lon_max` loop of `generate_grid`, with explicit
fuel: a `none` result means the loop has not finished within `fuel`
iterations. -/
def gridInnerLoop (lonMax lonStep lat : ℚ) : ℚ → List (ℚ × ℚ) → Nat → Option (List (ℚ × ℚ))
  | _, _, 0 => none
  | lon, acc, fuel + 1 =>
    if lon ≤ lonMax then
      gridInnerLoop lonMax lonStep lat (lon + lonStep) (acc ++ [(lat, lon)]) fuel
    else some acc

/-- The outer `while lat <= lat_max` loop of `generate_grid`, with fuel. -/
def gridOuterLoop (cosFn : ℚ → ℚ) (latMax lonMin lonMax step : ℚ) :
    ℚ → List (ℚ × ℚ) → Nat → Option (List (ℚ × ℚ))
  | _, _, 0 => none
  | lat, acc, fuel + 1 =>
    if lat ≤ latMax then
      match gridInnerLoop lonMax (metersToLon step (cosFn lat)) lat lonMin acc fuel with
      | none => none
      | some acc2 =>
        gridOuterLoop cosFn latMax lonMin lonMax step (lat + metersToLat step) acc2 fuel
    else some acc

/-- Embeds `generate_grid(lat_min, lat_max, lon_min, lon_max, step_meters)`.
`cosFn lat` models `math.cos(math.radians(lat))` (an arbitrary rational
abstraction of the real cosine); `fuel` bounds the total number of loop
iterations, so a `none` result for every `fuel` means the Python function
never terminates. -/
def generate_grid (cosFn : ℚ → ℚ) (latMin latMax lonMin lonMax step : ℚ)
    (fuel : Nat) : Option (List (ℚ × ℚ)) :=
  gridOuterLoop cosFn latMax lonMin lonMax step latMin [] fuel

theorem gridOuterLoop_nonpos_step (cosFn : ℚ → ℚ) (latMax lonMin lonMax step : ℚ)
    (hstep : step ≤ 0) :
    ∀ (fuel : Nat) (lat : ℚ) (acc : List (ℚ × ℚ)), lat ≤ latMax →
      gridOuterLoop cosFn latMax lonMin lonMax step lat acc fuel = none := by
  intro fuel
  induction fuel with
  | zero => intro lat acc _; rfl
  | succ n ih =>
    intro lat acc hlat
    have hmtl : metersToLat step ≤ 0 := by
      unfold metersToLat; linarith
    rw [gridOuterLoop, if_pos hlat]
    cases h : gridInnerLoop lonMax (metersToLon step (cosFn lat)) lat lonMin acc n with
    | none => rfl
    | some acc2 => exact ih (lat + metersToLat step) acc2 (by linarith)

/-- C1: the specification demands that `generate_grid` fail fast with an
`InvalidConfiguration` error on a zero or negative `step_meters`; the code
has no such check and instead never terminates.  On the Strasbourg bounding
box used by the scraper, for every non-positive step, every cosine
abstraction and every iteration budget, the loops are still running — the
function neither returns a value nor raises any error. -/
theorem generate_grid_nonpos_step_diverges (cosFn : ℚ → ℚ) (step : ℚ)
    (hstep : step ≤ 0) (fuel : Nat) :
    generate_grid cosFn (48530/1000) (48640/1000) (767/100) (783/100) step fuel = none := by
  unfold generate_grid
  exact gridOuterLoop_nonpos_step cosFn (48640/1000) (767/100) (783/100) step hstep fuel
    (48530/1000) [] (by norm_num)

/-- Witness for C1 at the concrete failing input: step 0, fuel 1000. -/
theorem generate_grid_nonpos_step_diverges_w :
    generate_grid (fun _ => 1) (48530/1000) (48640/1000) (767/100) (783/100) 0 1000 = none :=
  generate_grid_nonpos_step_diverges (fun _ => 1) 0 (le_refl 0) 1000

/-! ## Deduplicator (src/backend/data_process.py) -/

/-- Python strings are modelled as lists of characters; a missing (NaN)
string field is modelled as the empty string. -/
abbrev Str := List Char

/-- Models Python's whitespace class (the regex class `\s` and the default
of `str.strip`): space, tab, newline, carriage return, vertical tab, form
feed. -/
def isPySpace (c : Char) : Bool :=
  c == ' ' || c == '\t' || c == '\n' || c == '\r' || c == '\x0b' || c == '\x0c'

/-- Models the Python regex word class `\w`: ASCII letters, digits and
underscore; code points above ASCII (accented letters and the like) are
approximated as word characters. -/
def isPyWord (c : Char) : Bool :=
  c.isAlphanum || c == '_' || 127 < c.toNat

/-- Models Python `str.strip()`: drop leading and trailing whitespace. -/
def strip (s : Str) : Str :=
  ((s.dropWhile isPySpace).reverse.dropWhile isPySpace).reverse

/-- Helper of `collapseWs`: the flag records whether the previous character
was whitespace (its run has already emitted its single space). -/
def collapseWsAux : Bool → Str → Str
  | _, [] => []
  | prevSpace, c :: rest =>
    if isPySpace c then
      if prevSpace then collapseWsAux true rest
      else ' ' :: collapseWsAux true rest
    else c :: collapseWsAux false rest

/-- Models `re.sub(r'\s+', ' ', s)`: each maximal run of whitespace becomes
a single space. -/
def collapseWs (s : Str) : Str := collapseWsAux false s

/-- Embeds `normalize_name` of data_process.py: lowercase, remove the
characters matched by `[^\w\s]`, collapse whitespace runs, then strip. -/
def normalize_name (name : Str) : Str :=
  strip (collapseWs ((name.map Char.toLower).filter (fun c => isPyWord c || isPySpace c)))

/-- Models Python `abs` on rationals. -/
def absQ (q : ℚ) : ℚ := if q < 0 then -q else q

theorem absQ_eq_abs (q : ℚ) : absQ q = |q| := by
  unfold absQ
  by_cases h : q < 0
  · rw [if_pos h, abs_of_neg h]
  · rw [if_neg h, abs_of_nonneg (le_of_not_lt h)]

/-- Embeds `is_same_location`: both absolute coordinate differences are
strictly below 0.001 degrees. -/
def is_same_location (lat1 lng1 lat2 lng2 : ℚ) : Bool :=
  decide (absQ (lat1 - lat2) < 1/1000) && decide (absQ (lng1 - lng2) < 1/1000)

/-- One row of the restaurant table: the CSV columns written by the scraper
plus the `review_count` column of the aggregated table. -/
structure Row where
  place_id : Str
  place_name : Str
  latitude : ℚ
  longitude : ℚ
  review_text : Str
  review_count : Nat
  google_maps_uri : Str
  reviews_uri : Str
deriving DecidableEq, Repr

/-- Embeds `is_duplicate(row1, row2)`: same normalized name, then same
location. -/
def is_duplicate (row1 row2 : Row) : Bool :=
  let name1 := normalize_name row1.place_name
  let name2 := normalize_name row2.place_name
  if name1 ≠ name2 then false
  else is_same_location row1.latitude row1.longitude row2.latitude row2.longitude

/-- C2: two rows are judged the same physical place exactly when their
normalized names (lowercased, punctuation stripped, whitespace collapsed)
coincide and both coordinate differences are strictly below 0.001°; in
particular a name-only or location-only match is never merged. -/
theorem is_duplicate_iff (row1 row2 : Row) :
    is_duplicate row1 row2 = true ↔
      (normalize_name row1.place_name = normalize_name row2.place_name ∧
       |row1.latitude - row2.latitude| < 1/1000 ∧
       |row1.longitude - row2.longitude| < 1/1000) := by
  unfold is_duplicate is_same_location
  rw [absQ_eq_abs, absQ_eq_abs]
  by_cases h : normalize_name row1.place_name = normalize_name row2.place_name <;>
    simp [h]

/-- Models Python `s.split('\n')`; splitting the empty string yields a list
holding one empty string, exactly as in Python. -/
def splitNl : Str → List Str
  | [] => [[]]
  | c :: rest =>
    match splitNl rest with
    | [] => [[]]
    | h :: t => if c = '\n' then [] :: h :: t else (c :: h) :: t

/-- Models `'\n'.join(l)`. -/
def joinNl : List Str → Str
  | [] => []
  | [s] => s
  | s :: rest => s ++ '\n' :: joinNl rest

/-- The accumulator loop of `merge_reviews`: strip each line, keep the
non-empty lines not seen before, in order of first appearance. -/
def dedupReviewLines (seen : List Str) : List Str → List Str
  | [] => []
  | s :: rest =>
    if strip s ≠ [] ∧ strip s ∉ seen then strip s :: dedupReviewLines (strip s :: seen) rest
    else dedupReviewLines seen rest

/-- The distinct review strings `merge_reviews` collects from a list of
review-text blocks: blocks empty after stripping are skipped, the others are
split on newlines; the lines are stripped and deduplicated. -/
def uniqueReviews (reviews_list : List Str) : List Str :=
  dedupReviewLines [] (((reviews_list.filter (fun r => strip r ≠ [])).map splitNl).flatten)

/-- Embeds `merge_reviews(reviews_list)` of data_process.py. -/
def merge_reviews (reviews_list : List Str) : Str :=
  joinNl (uniqueReviews reviews_list)

/-- The scan of `remove_duplicates`: the first remaining row absorbs the
review texts of all its later duplicates, which are dropped; when at least
one duplicate was found, its `review_text` becomes the merged block and its
`review_count` becomes `len(merged.split('\n'))`.  The `fuel` argument only
makes the recursion structural; `remove_duplicates` passes the list length,
which the scan never exhausts since every step strictly shortens the list. -/
def removeDupGo : Nat → List Row → List Row
  | 0, db => db
  | _ + 1, [] => []
  | fuel + 1, row1 :: rest =>
    let dups := rest.filter (fun r => is_duplicate row1 r)
    let rest2 := rest.filter (fun r => !is_duplicate row1 r)
    let row1m :=
      if dups.isEmpty then row1
      else
        let merged := merge_reviews (row1.review_text :: dups.map Row.review_text)
        { row1 with review_text := merged, review_count := (splitNl merged).length }
    row1m :: removeDupGo fuel rest2

/-- Embeds `remove_duplicates(db)` of data_process.py on a list of rows. -/
def remove_duplicates (db : List Row) : List Row := removeDupGo db.length db

theorem splitNl_ne_nil (s : Str) : splitNl s ≠ [] := by
  cases s with
  | nil => simp [splitNl]
  | cons c rest =>
    rw [splitNl]
    cases h : splitNl rest with
    | nil => simp
    | cons a t => by_cases hc : c = '\n' <;> simp [hc]

theorem splitNl_no_nl_mem (x : Str) : ∀ s ∈ splitNl x, '\n' ∉ s := by
  induction x with
  | nil =>
    intro s hs
    rw [splitNl, List.mem_singleton] at hs
    simp [hs]
  | cons c rest ih =>
    intro s hs
    cases h : splitNl rest with
    | nil => exact absurd h (splitNl_ne_nil rest)
    | cons a t =>
      have he : splitNl (c :: rest) = if c = '\n' then [] :: a :: t else (c :: a) :: t := by
        rw [splitNl, h]
      rw [he] at hs
      by_cases hc : c = '\n'
      · rw [if_pos hc] at hs
        rcases List.mem_cons.mp hs with rfl | hs2
        · simp
        · exact ih s (h ▸ hs2)
      · rw [if_neg hc] at hs
        rcases List.mem_cons.mp hs with rfl | hs2
        · intro hmem
          rcases List.mem_cons.mp hmem with he | hmem2
          · exact hc he.symm
          · exact ih a (h ▸ List.mem_cons_self a t) hmem2
        · exact ih s (h ▸ List.mem_cons_of_mem a hs2)

theorem splitNl_append (x rest : Str) (hx : '\n' ∉ x) :
    splitNl (x ++ '\n' :: rest) = x :: splitNl rest := by
  induction x with
  | nil =>
    rw [List.nil_append, splitNl]
    cases h : splitNl rest with
    | nil => exact absurd h (splitNl_ne_nil rest)
    | cons a t => simp
  | cons c x2 ih =>
    have hc : c ≠ '\n' := fun he => hx (he ▸ List.mem_cons_self c x2)
    have hx2 : '\n' ∉ x2 := fun hm => hx (List.mem_cons_of_mem c hm)
    rw [List.cons_append, splitNl, ih hx2]
    simp [hc]

theorem splitNl_of_no_nl (x : Str) (hx : '\n' ∉ x) : splitNl x = [x] := by
  induction x with
  | nil => rfl
  | cons c x2 ih =>
    have hc : c ≠ '\n' := fun he => hx (he ▸ List.mem_cons_self c x2)
    have hx2 : '\n' ∉ x2 := fun hm => hx (List.mem_cons_of_mem c hm)
    rw [splitNl, ih hx2]
    simp [hc]

theorem splitNl_joinNl (l : List Str) (hne : l ≠ []) (h : ∀ s ∈ l, '\n' ∉ s) :
    splitNl (joinNl l) = l := by
  induction l with
  | nil => exact absurd rfl hne
  | cons x l2 ih =>
    cases l2 with
    | nil => exact splitNl_of_no_nl x (h x (List.mem_cons_self x []))
    | cons y t =>
      rw [show joinNl (x :: y :: t) = x ++ '\n' :: joinNl (y :: t) from rfl]
      rw [splitNl_append x (joinNl (y :: t)) (h x (List.mem_cons_self x (y :: t)))]
      rw [ih (List.cons_ne_nil y t) (fun s hs => h s (List.mem_cons_of_mem x hs))]

theorem mem_of_mem_dropWhile {c : Char} {p : Char → Bool} :
    ∀ {l : Str}, c ∈ l.dropWhile p → c ∈ l := by
  intro l
  induction l with
  | nil => intro h; simp [List.dropWhile] at h
  | cons a rest ih =>
    intro h
    rw [List.dropWhile] at h
    by_cases hp : p a
    · simp only [hp] at h
      exact List.mem_cons_of_mem a (ih h)
    · simp only [Bool.not_eq_true] at hp
      simp only [hp] at h
      exact h

theorem mem_of_mem_strip {c : Char} {s : Str} (h : c ∈ strip s) : c ∈ s := by
  unfold strip at h
  rw [List.mem_reverse] at h
  have h2 := mem_of_mem_dropWhile h
  rw [List.mem_reverse] at h2
  exact mem_of_mem_dropWhile h2

theorem mem_dedupReviewLines (l : List Str) :
    ∀ (seen : List Str), ∀ t ∈ dedupReviewLines seen l, ∃ s ∈ l, t = strip s := by
  induction l with
  | nil => intro seen t ht; simp [dedupReviewLines] at ht
  | cons s rest ih =>
    intro seen t ht
    rw [dedupReviewLines] at ht
    by_cases hcond : strip s ≠ [] ∧ strip s ∉ seen
    · rw [if_pos hcond] at ht
      rcases List.mem_cons.mp ht with rfl | ht2
      · exact ⟨s, List.mem_cons_self s rest, rfl⟩
      · obtain ⟨s2, hs2, he⟩ := ih (strip s :: seen) t ht2
        exact ⟨s2, List.mem_cons_of_mem s hs2, he⟩
    · rw [if_neg hcond] at ht
      obtain ⟨s2, hs2, he⟩ := ih seen t ht
      exact ⟨s2, List.mem_cons_of_mem s hs2, he⟩

theorem uniqueReviews_no_nl (l : List Str) : ∀ t ∈ uniqueReviews l, '\n' ∉ t := by
  intro t ht hnl
  obtain ⟨s, hs, rfl⟩ := mem_dedupReviewLines _ [] t ht
  rw [List.mem_flatten] at hs
  obtain ⟨piece, hpiece, hspiece⟩ := hs
  rw [List.mem_map] at hpiece
  obtain ⟨r, _, rfl⟩ := hpiece
  exact splitNl_no_nl_mem r s hspiece (mem_of_mem_strip hnl)

/-- The review count `remove_duplicates` writes back: the length of
`merged.split('\n')` is the number of distinct review strings, except that
an empty merge still counts 1 (Python `''.split('\n') == ['']`). -/
theorem splitNl_merge_reviews (l : List Str) :
    (splitNl (merge_reviews l)).length = max 1 (uniqueReviews l).length := by
  unfold merge_reviews
  cases h : uniqueReviews l with
  | nil => simp [joinNl, splitNl]
  | cons u t =>
    rw [splitNl_joinNl (u :: t) (List.cons_ne_nil u t)
      (fun s hs => uniqueReviews_no_nl l s (h ▸ hs))]
    simp only [List.length_cons]
    omega

/-- C3 (amended): merging a duplicate pair stores the merged distinct-review
block and sets `review_count` to the number of distinct (stripped, non-empty)
review strings across both records — except that when that number is zero the
code writes 1, the length of `''.split('\n')`. -/
theorem remove_duplicates_pair_review_count (r1 r2 : Row) (h : is_duplicate r1 r2 = true) :
    ∃ m : Row, remove_duplicates [r1, r2] = [m] ∧
      m.review_text = merge_reviews [r1.review_text, r2.review_text] ∧
      m.review_count = max 1 (uniqueReviews [r1.review_text, r2.review_text]).length := by
  have e : remove_duplicates [r1, r2] =
      [{ r1 with
           review_text := merge_reviews [r1.review_text, r2.review_text],
           review_count := (splitNl (merge_reviews [r1.review_text, r2.review_text])).length }] := by
    unfold remove_duplicates
    simp [removeDupGo, List.filter_cons, h]
  exact ⟨_, e, rfl, splitNl_merge_reviews [r1.review_text, r2.review_text]⟩

/-- Concrete duplicate pair with overlapping review sets, for the C3
witness: reviews a,b against b,c. -/
def rowOverlapA : Row :=
  { place_id := "q1".data, place_name := "B".data, latitude := 0, longitude := 0,
    review_text := "a\nb".data, review_count := 2, google_maps_uri := [], reviews_uri := [] }

/-- Second record of the overlapping pair. -/
def rowOverlapB : Row :=
  { rowOverlapA with place_id := "q2".data, review_text := "b\nc".data }

/-- Witness for C3 (amended) on the overlapping pair: the merged record
carries the distinct union a,b,c, so `review_count` is 3, not 2 + 2. -/
theorem remove_duplicates_pair_review_count_w :
    ∃ m : Row, remove_duplicates [rowOverlapA, rowOverlapB] = [m] ∧
      m.review_text = merge_reviews [rowOverlapA.review_text, rowOverlapB.review_text] ∧
      m.review_count = max 1 (uniqueReviews [rowOverlapA.review_text, rowOverlapB.review_text]).length :=
  remove_duplicates_pair_review_count rowOverlapA rowOverlapB
    (by simp [rowOverlapA, rowOverlapB, is_duplicate, is_same_location, absQ])

/-- Concrete duplicate pair whose review texts are both empty, for the C3
counterexample. -/
def rowEmptyA : Row :=
  { place_id := "p1".data, place_name := "A".data, latitude := 0, longitude := 0,
    review_text := [], review_count := 0, google_maps_uri := [], reviews_uri := [] }

/-- Second record of the empty-review pair. -/
def rowEmptyB : Row :=
  { rowEmptyA with place_id := "p2".data }

/-- C3 counterexample: merging two duplicates with no review strings at all
writes `review_count = 1` (the length of `''.split('\n')`), while the number
of distinct review strings across both records is 0 — so the count is not
always the number of distinct review strings. -/
theorem remove_duplicates_empty_reviews_cex :
    (remove_duplicates [rowEmptyA, rowEmptyB]).map Row.review_count = [1] ∧
    (uniqueReviews [rowEmptyA.review_text, rowEmptyB.review_text]).length = 0 := by
  constructor
  · unfold remove_duplicates
    simp [rowEmptyA, rowEmptyB, removeDupGo, List.filter_cons, is_duplicate,
      is_same_location, absQ, merge_reviews, uniqueReviews, dedupReviewLines,
      strip, joinNl, splitNl]
  · simp [rowEmptyA, rowEmptyB, uniqueReviews, dedupReviewLines, strip]

theorem removeDupGo_fuel (fuel : Nat) :
    ∀ (fuel2 : Nat) (l : List Row), l.length ≤ fuel → l.length ≤ fuel2 →
      removeDupGo fuel l = removeDupGo fuel2 l := by
  induction fuel with
  | zero =>
    intro fuel2 l h _
    have hl : l = [] := List.eq_nil_of_length_eq_zero (Nat.le_zero.mp h)
    subst hl
    cases fuel2 <;> rfl
  | succ n ih =>
    intro fuel2 l h h2
    cases l with
    | nil => cases fuel2 <;> rfl
    | cons r1 rest =>
      cases fuel2 with
      | zero => simp at h2
      | succ n2 =>
        simp only [removeDupGo]
        have hr : (rest.filter (fun r => !is_duplicate r1 r)).length ≤ rest.length :=
          List.length_filter_le _ _
        have hn : rest.length ≤ n := by simpa using h
        have hn2 : rest.length ≤ n2 := by simpa using h2
        rw [ih n2 (rest.filter (fun r => !is_duplicate r1 r)) (le_trans hr hn) (le_trans hr hn2)]

/-- C4: the record surviving a merge group keeps every field of the
first-seen record except `review_text` and `review_count`; later duplicates
never override them, and the scan then continues on the rows that are not
duplicates of the first-seen record. -/
theorem remove_duplicates_first_seen_scalars (row1 : Row) (rest : List Row) :
    ∃ m tail, remove_duplicates (row1 :: rest) = m :: tail ∧
      m.place_id = row1.place_id ∧ m.place_name = row1.place_name ∧
      m.latitude = row1.latitude ∧ m.longitude = row1.longitude ∧
      m.google_maps_uri = row1.google_maps_uri ∧ m.reviews_uri = row1.reviews_uri ∧
      tail = remove_duplicates (rest.filter (fun r => !is_duplicate row1 r)) := by
  unfold remove_duplicates
  simp only [List.length_cons, removeDupGo]
  refine ⟨_, _, rfl, ?_, ?_, ?_, ?_, ?_, ?_, ?_⟩
  · split <;> rfl
  · split <;> rfl
  · split <;> rfl
  · split <;> rfl
  · split <;> rfl
  · split <;> rfl
  · exact removeDupGo_fuel rest.length _ _ (List.length_filter_le _ _) (le_refl _)

/-- The fields `is_duplicate` reads: name and coordinates. -/
def samePlace (a b : Row) : Prop :=
  a.place_name = b.place_name ∧ a.latitude = b.latitude ∧ a.longitude = b.longitude

theorem is_duplicate_congr {a a2 b b2 : Row} (ha : samePlace a a2) (hb : samePlace b b2) :
    is_duplicate a b = is_duplicate a2 b2 := by
  obtain ⟨h1, h2, h3⟩ := ha
  obtain ⟨g1, g2, g3⟩ := hb
  unfold is_duplicate is_same_location
  rw [h1, h2, h3, g1, g2, g3]

theorem samePlace_refl (a : Row) : samePlace a a := ⟨rfl, rfl, rfl⟩

theorem survivor_samePlace (r1 : Row) (dups : List Row) :
    samePlace
      (if dups.isEmpty = true then r1
       else
         { r1 with
             review_text := merge_reviews (r1.review_text :: dups.map Row.review_text),
             review_count :=
               (splitNl (merge_reviews (r1.review_text :: dups.map Row.review_text))).length })
      r1 := by
  split <;> exact ⟨rfl, rfl, rfl⟩

theorem removeDupGo_mem_samePlace (fuel : Nat) :
    ∀ (l : List Row), ∀ x ∈ removeDupGo fuel l, ∃ y ∈ l, samePlace x y := by
  induction fuel with
  | zero => intro l x hx; exact ⟨x, hx, samePlace_refl x⟩
  | succ n ih =>
    intro l x hx
    cases l with
    | nil =>
      rw [show removeDupGo (n + 1) ([] : List Row) = [] from rfl] at hx
      exact absurd hx (List.not_mem_nil x)
    | cons r1 rest =>
      simp only [removeDupGo] at hx
      rcases List.mem_cons.mp hx with rfl | h2
      · exact ⟨r1, List.mem_cons_self r1 rest, survivor_samePlace r1 _⟩
      · obtain ⟨y, hy, sp⟩ := ih _ x h2
        exact ⟨y, List.mem_cons_of_mem r1 (List.mem_of_mem_filter hy), sp⟩

theorem removeDupGo_pairwise (fuel : Nat) :
    ∀ (l : List Row), l.length ≤ fuel →
      List.Pairwise (fun a b => is_duplicate a b = false) (removeDupGo fuel l) := by
  induction fuel with
  | zero =>
    intro l h
    have hl : l = [] := List.eq_nil_of_length_eq_zero (Nat.le_zero.mp h)
    subst hl
    exact List.Pairwise.nil
  | succ n ih =>
    intro l h
    cases l with
    | nil => exact List.Pairwise.nil
    | cons r1 rest =>
      simp only [removeDupGo]
      rw [List.pairwise_cons]
      constructor
      · intro b hb
        obtain ⟨y, hy, sp⟩ := removeDupGo_mem_samePlace n _ b hb
        have hy2 : is_duplicate r1 y = false := by
          have hmem := List.of_mem_filter hy
          simpa using hmem
        rw [is_duplicate_congr (survivor_samePlace r1 _) sp]
        exact hy2
      · exact ih _ (le_trans (List.length_filter_le _ _) (by simpa using h))

theorem removeDupGo_of_pairwise (fuel : Nat) :
    ∀ (l : List Row), l.length ≤ fuel →
      List.Pairwise (fun a b => is_duplicate a b = false) l →
      removeDupGo fuel l = l := by
  induction fuel with
  | zero =>
    intro l h _
    have hl : l = [] := List.eq_nil_of_length_eq_zero (Nat.le_zero.mp h)
    subst hl
    rfl
  | succ n ih =>
    intro l h hp
    cases l with
    | nil => rfl
    | cons r1 rest =>
      rw [List.pairwise_cons] at hp
      obtain ⟨hhead, htail⟩ := hp
      have hdups : rest.filter (fun r => is_duplicate r1 r) = [] := by
        rw [List.filter_eq_nil_iff]
        intro a ha
        simp [hhead a ha]
      have hrest2 : rest.filter (fun r => !is_duplicate r1 r) = rest := by
        rw [List.filter_eq_self]
        intro a ha
        simp [hhead a ha]
      simp only [removeDupGo, hdups, hrest2, List.isEmpty_nil, if_pos]
      rw [ih rest (by simpa using h) htail]

/-- C5: the deduplicator is idempotent — running `remove_duplicates` on its
own output changes nothing, because the output contains no duplicate pair. -/
theorem remove_duplicates_idempotent (db : List Row) :
    remove_duplicates (remove_duplicates db) = remove_duplicates db := by
  unfold remove_duplicates
  exact removeDupGo_of_pairwise _ _ (le_refl _) (removeDupGo_pairwise db.length db (le_refl _))

/-! ## Semantic search (src/demo/RestaurantSearchEngine.py, src/backend/app.py) -/

/-- Exact rational square root: the square root when the argument is the
square of a rational, 0 otherwise.  Models the real square root used by
cosine similarity; it is exact on every vector appearing in the concrete
instances below, whose squared norms are perfect squares. -/
def qSqrt (q : ℚ) : ℚ :=
  if 0 ≤ q ∧ ((Nat.sqrt q.num.toNat : ℤ) ^ 2 = q.num ∧ (Nat.sqrt q.den) ^ 2 = q.den)
  then (Nat.sqrt q.num.toNat : ℚ) / (Nat.sqrt q.den : ℚ)
  else 0

/-- Dot product of two equal-length vectors. -/
def dotQ : List ℚ → List ℚ → ℚ
  | a :: as2, b :: bs => a * b + dotQ as2 bs
  | _, _ => 0

/-- Squared Euclidean norm. -/
def normSq (v : List ℚ) : ℚ := dotQ v v

/-- Models `sklearn.metrics.pairwise.cosine_similarity` /
`sentence_transformers.util.cos_sim` for one pair of vectors: the dot
product divided by the product of the Euclidean norms. -/
def cosineSim (a b : List ℚ) : ℚ :=
  dotQ a b / (qSqrt (normSq a) * qSqrt (normSq b))

/-- Banker's rounding to the nearest integer, as Python `round`: round half
to even. -/
def roundHalfEven (q : ℚ) : ℤ :=
  if q - ⌊q⌋ < 1/2 then ⌊q⌋
  else if 1/2 < q - ⌊q⌋ then ⌊q⌋ + 1
  else if ⌊q⌋ % 2 = 0 then ⌊q⌋ else ⌊q⌋ + 1

/-- Models Python `round(x, 4)` / pandas `.round(4)`. -/
def round4 (q : ℚ) : ℚ := (roundHalfEven (q * 10000) : ℚ) / 10000

/-- One row of the pre-encoded parquet database: one review with its
embedding vector and its restaurant's scalar columns. -/
structure EmbRow where
  place_id : Str
  place_name : Str
  latitude : ℚ
  longitude : ℚ
  embedding : List ℚ
deriving DecidableEq, Repr

/-- One search result, after the column renaming in `search`. -/
structure SearchResult where
  place_id : Str
  name : Str
  lat : ℚ
  lng : ℚ
  similarity : ℚ
deriving DecidableEq, Repr

/-- Code-point lexicographic comparison of strings, as Python string `<`. -/
def ltStr : Str → Str → Bool
  | [], [] => false
  | [], _ :: _ => true
  | _ :: _, [] => false
  | c :: cs, d :: ds =>
    if c.toNat < d.toNat then true
    else if d.toNat < c.toNat then false
    else ltStr cs ds

/-- Ascending insertion into a sorted key list. -/
def insertKeyAsc (k : Str) : List Str → List Str
  | [] => [k]
  | x :: xs => if ltStr k x then k :: x :: xs else x :: insertKeyAsc k xs

/-- First-occurrence deduplication. -/
def dedupFirstAux (seen : List Str) : List Str → List Str
  | [] => []
  | k :: rest =>
    if k ∈ seen then dedupFirstAux seen rest
    else k :: dedupFirstAux (k :: seen) rest

/-- The group keys produced by `DataFrame.groupby('place_id')`: the distinct
keys in ascending order (pandas groupby sorts group keys by default). -/
def groupKeys (l : List Str) : List Str :=
  (dedupFirstAux [] l).foldr insertKeyAsc []

/-- Maximum of a score list with explicit seed, as the pandas `max`
aggregation over a non-empty group. -/
def listMax : ℚ → List ℚ → ℚ
  | m, [] => m
  | m, x :: xs => listMax (if m < x then x else m) xs

/-- `max` aggregation of a group's scores (groups are never empty). -/
def groupMax : List ℚ → ℚ
  | [] => 0
  | s :: rest => listMax s rest

/-- Stable descending insertion: a record goes before the first strictly
smaller similarity, keeping the prior order of equal scores. -/
def insertDesc (x : SearchResult) : List SearchResult → List SearchResult
  | [] => [x]
  | y :: ys => if y.similarity ≤ x.similarity then x :: y :: ys else y :: insertDesc x ys

/-- Models `sort_values('similarity_score', ascending=False)` as a stable
descending sort (the tie order of the pandas quicksort is modelled as
stable, which matches its behaviour on the small concrete inputs below). -/
def sortBySimDesc (l : List SearchResult) : List SearchResult := l.foldr insertDesc []

/-- Embeds `RestaurantSearchEngine.search(user_input, aggregation)`: attach
one cosine similarity per review row, group rows by `place_id` (keys in
pandas sorted order) taking the first name and coordinates and the
aggregated score per group, sort descending by raw score, then round the
scores to 4 decimals.  `queryVec` is the opaque embedding of the query text;
an aggregation other than max or mean silently falls back to max. -/
def searchModel (df : List EmbRow) (queryVec : List ℚ) (aggregation : Str) :
    List SearchResult :=
  let scored := df.map (fun r => (r, cosineSim queryVec r.embedding))
  let agg := if aggregation = "max".data ∨ aggregation = "mean".data
             then aggregation else "max".data
  let keys := groupKeys (df.map EmbRow.place_id)
  let results := keys.filterMap (fun k =>
    match scored.filter (fun p => p.1.place_id == k) with
    | [] => none
    | p :: ps =>
      some { place_id := k, name := p.1.place_name, lat := p.1.latitude,
             lng := p.1.longitude,
             similarity :=
               if agg = "mean".data
               then ((p :: ps).map Prod.snd).sum / (((p :: ps).length : ℚ))
               else groupMax ((p :: ps).map Prod.snd) })
  (sortBySimDesc results).map (fun r => { r with similarity := round4 r.similarity })

theorem roundHalfEven_intCast (n : ℤ) : roundHalfEven ((n : ℤ) : ℚ) = n := by
  unfold roundHalfEven
  rw [Int.floor_intCast]
  norm_num

theorem round4_of_mul_eq_intCast (q : ℚ) (n : ℤ) (h : q * 10000 = (n : ℚ)) :
    round4 q = (n : ℚ) / 10000 := by
  unfold round4
  rw [h, roundHalfEven_intCast]

theorem round4_one : round4 1 = 1 := by
  rw [round4_of_mul_eq_intCast 1 10000 (by norm_num)]
  norm_num

theorem round4_neg_one : round4 (-1) = -1 := by
  rw [round4_of_mul_eq_intCast (-1) (-10000) (by norm_num)]
  norm_num

theorem roundHalfEven_ge_floor (q : ℚ) : ⌊q⌋ ≤ roundHalfEven q := by
  unfold roundHalfEven
  split_ifs <;> omega

theorem roundHalfEven_le_floor_add_one (q : ℚ) : roundHalfEven q ≤ ⌊q⌋ + 1 := by
  unfold roundHalfEven
  split_ifs <;> omega

theorem roundHalfEven_mono {a b : ℚ} (h : a ≤ b) : roundHalfEven a ≤ roundHalfEven b := by
  rcases lt_or_eq_of_le (Int.floor_le_floor h) with hf | hf
  · calc roundHalfEven a ≤ ⌊a⌋ + 1 := roundHalfEven_le_floor_add_one a
      _ ≤ ⌊b⌋ := by omega
      _ ≤ roundHalfEven b := roundHalfEven_ge_floor b
  · unfold roundHalfEven
    rw [← hf]
    split_ifs <;> first | omega | linarith

theorem round4_mono {a b : ℚ} (h : a ≤ b) : round4 a ≤ round4 b := by
  unfold round4
  have h2 : roundHalfEven (a * 10000) ≤ roundHalfEven (b * 10000) :=
    roundHalfEven_mono (by linarith)
  have h3 : ((roundHalfEven (a * 10000) : ℤ) : ℚ) ≤ ((roundHalfEven (b * 10000) : ℤ) : ℚ) := by
    exact_mod_cast h2
  exact (div_le_div_iff_of_pos_right (by norm_num)).mpr h3

theorem mem_insertDesc {b x : SearchResult} :
    ∀ {l : List SearchResult}, b ∈ insertDesc x l → b = x ∨ b ∈ l := by
  intro l
  induction l with
  | nil =>
    intro h
    rw [insertDesc] at h
    exact Or.inl (List.mem_singleton.mp h)
  | cons y ys ih =>
    intro h
    rw [insertDesc] at h
    by_cases hc : y.similarity ≤ x.similarity
    · rw [if_pos hc] at h
      rcases List.mem_cons.mp h with rfl | h2
      · exact Or.inl rfl
      · exact Or.inr h2
    · rw [if_neg hc] at h
      rcases List.mem_cons.mp h with rfl | h2
      · exact Or.inr (List.mem_cons_self _ _)
      · rcases ih h2 with rfl | h3
        · exact Or.inl rfl
        · exact Or.inr (List.mem_cons_of_mem _ h3)

theorem pairwise_insertDesc (x : SearchResult) (l : List SearchResult)
    (h : List.Pairwise (fun a b => b.similarity ≤ a.similarity) l) :
    List.Pairwise (fun a b => b.similarity ≤ a.similarity) (insertDesc x l) := by
  induction l with
  | nil => exact List.pairwise_singleton _ x
  | cons y ys ih =>
    rw [List.pairwise_cons] at h
    obtain ⟨hy, hys⟩ := h
    rw [insertDesc]
    by_cases hc : y.similarity ≤ x.similarity
    · rw [if_pos hc, List.pairwise_cons]
      refine ⟨?_, List.Pairwise.cons hy hys⟩
      intro b hb
      rcases List.mem_cons.mp hb with rfl | hb2
      · exact hc
      · exact le_trans (hy b hb2) hc
    · rw [if_neg hc, List.pairwise_cons]
      refine ⟨?_, ih hys⟩
      intro b hb
      rcases mem_insertDesc hb with rfl | hb2
      · exact le_of_not_le hc
      · exact hy b hb2

theorem pairwise_sortBySimDesc (l : List SearchResult) :
    List.Pairwise (fun a b => b.similarity ≤ a.similarity) (sortBySimDesc l) := by
  unfold sortBySimDesc
  induction l with
  | nil => exact List.Pairwise.nil
  | cons x xs ih => exact pairwise_insertDesc x _ ih

/-- C6 (amended): the result sequence is sorted by similarity in descending
order; the tie-order clause of the claim is refuted separately — equal-score
results come out in the groupby key order, not in first-seen order. -/
theorem search_sorted_desc (df : List EmbRow) (queryVec : List ℚ) (agg : Str) :
    List.Pairwise (fun x y => y.similarity ≤ x.similarity)
      (searchModel df queryVec agg) := by
  unfold searchModel
  exact (pairwise_sortBySimDesc _).map _ (fun a b hab => round4_mono hab)

/-- Review row of entity b, seen first in the index. -/
def embRowB : EmbRow :=
  { place_id := "b".data, place_name := "B".data, latitude := 1, longitude := 1,
    embedding := [1, 0] }

/-- Review row of entity a, seen second in the index. -/
def embRowA : EmbRow :=
  { place_id := "a".data, place_name := "A".data, latitude := 2, longitude := 2,
    embedding := [1, 0] }

theorem searchTie_eval : searchModel [embRowB, embRowA] [1, 0] "max".data =
    [{ place_id := "a".data, name := "A".data, lat := 2, lng := 2, similarity := 1 },
     { place_id := "b".data, name := "B".data, lat := 1, lng := 1, similarity := 1 }] := by
  norm_num [searchModel, embRowA, embRowB, groupKeys, dedupFirstAux, insertKeyAsc, ltStr,
    cosineSim, dotQ, normSq, qSqrt, groupMax, listMax, sortBySimDesc, insertDesc,
    List.filter, List.filterMap_cons, beq_self_eq_true, round4_one,
    (by decide : ¬ ('b'.toNat < 'a'.toNat)), (by decide : ('a'.toNat < 'b'.toNat)),
    (by decide : (['b'] == ['a']) = false), (by decide : (['a'] == ['b']) = false)]

/-- C6 counterexample: entity b is first-seen in the index and ties with
entity a at similarity 1, yet the result order is a before b — pandas
`groupby` reorders entities by key before the sort, so equal-similarity
results do not appear in stable first-seen order. -/
theorem search_tie_not_first_seen_cex :
    (searchModel [embRowB, embRowA] [1, 0] "max".data).map SearchResult.place_id =
      ["a".data, "b".data] ∧
    (searchModel [embRowB, embRowA] [1, 0] "max".data).map SearchResult.similarity = [1, 1] ∧
    [embRowB, embRowA].map EmbRow.place_id = ["b".data, "a".data] ∧
    (["a".data, "b".data] : List Str) ≠ ["b".data, "a".data] := by
  refine ⟨?_, ?_, rfl, by decide⟩
  · rw [searchTie_eval]
    rfl
  · rw [searchTie_eval]
    rfl

/-- Review row whose embedding points opposite to the query, for C7. -/
def embRowNeg : EmbRow :=
  { place_id := "n".data, place_name := "N".data, latitude := 0, longitude := 0,
    embedding := [-1, 0] }

theorem searchNeg_eval : searchModel [embRowNeg] [1, 0] "max".data =
    [{ place_id := "n".data, name := "N".data, lat := 0, lng := 0, similarity := -1 }] := by
  norm_num [searchModel, embRowNeg, groupKeys, dedupFirstAux, insertKeyAsc, ltStr,
    cosineSim, dotQ, normSq, qSqrt, groupMax, listMax, sortBySimDesc, insertDesc,
    List.filter, List.filterMap_cons, beq_self_eq_true, round4_neg_one]

/-- C7 counterexample: a query vector opposite to a review embedding gives
cosine similarity −1; no clipping is applied, so the returned similarity is
−1, outside [0,1]. -/
theorem search_similarity_negative_cex :
    (searchModel [embRowNeg] [1, 0] "max".data).map SearchResult.similarity = [-1] ∧
    ¬ (0 ≤ (-1 : ℚ)) := by
  refine ⟨?_, by norm_num⟩
  rw [searchNeg_eval]
  rfl

/-- C7 (amended): every returned similarity is rounded to 4 decimal places
(it is an integer multiple of 1/10000); the interval claim [0,1] is refuted
separately, since cosine similarity is returned unclipped. -/
theorem search_similarity_rounded (df : List EmbRow) (queryVec : List ℚ) (agg : Str) :
    ∀ res ∈ searchModel df queryVec agg, ∃ k : ℤ, res.similarity = (k : ℚ) / 10000 := by
  intro res hres
  simp only [searchModel] at hres
  rw [List.mem_map] at hres
  obtain ⟨r, _, rfl⟩ := hres
  exact ⟨roundHalfEven (r.similarity * 10000), rfl⟩

/-- Witness for C7 (amended) at the concrete one-entity index. -/
theorem search_similarity_rounded_w :
    ∃ k : ℤ,
      ({ place_id := "n".data, name := "N".data, lat := 0, lng := 0,
         similarity := -1 } : SearchResult).similarity = (k : ℚ) / 10000 :=
  search_similarity_rounded [embRowNeg] [1, 0] "max".data _
    (by rw [searchNeg_eval]; exact List.mem_singleton_self _)

/-- C10: an aggregation argument that is neither max nor mean does not
fail; the engine silently falls back to max aggregation and returns exactly
the results of an explicit max call. -/
theorem search_agg_fallback (df : List EmbRow) (queryVec : List ℚ) (agg : Str)
    (h1 : agg ≠ "max".data) (h2 : agg ≠ "mean".data) :
    searchModel df queryVec agg = searchModel df queryVec "max".data := by
  unfold searchModel
  have he : (if agg = "max".data ∨ agg = "mean".data then agg else "max".data) = "max".data := by
    rw [if_neg]
    rintro (h | h)
    · exact h1 h
    · exact h2 h
  rw [he, ite_self]

/-- Witness for C10 at aggregation median. -/
theorem search_agg_fallback_w :
    searchModel [] [] "median".data = searchModel [] [] "max".data :=
  search_agg_fallback [] [] "median".data (by decide) (by decide)

/-! ## Backend server state (src/backend/app.py) -/

/-- One row of the backend CSV table loaded at startup. -/
structure BackendRow where
  place_id : Str
  place_name : Str
  latitude : ℚ
  longitude : ℚ
  review_text : Str
deriving DecidableEq, Repr

/-- The module-level state of backend/app.py: the dataframe rows, the
per-review embeddings computed at startup, and the `similarity_score`
column, present only after some search has written it. -/
structure ServerState where
  rows : List BackendRow
  reviewEmbeddings : List (List ℚ)
  simCol : Option (List ℚ)
deriving DecidableEq, Repr

/-- The result list computed by the backend `search` route from the rows,
the review embeddings and the query embedding: per-review cosine scores,
groupby place_id (first name and coordinates, max score), descending sort,
round to 4 decimals. -/
def backendResults (rows : List BackendRow) (embs : List (List ℚ))
    (queryVec : List ℚ) : List SearchResult :=
  let scored := rows.zip (embs.map (cosineSim queryVec))
  let keys := groupKeys (rows.map BackendRow.place_id)
  let results := keys.filterMap (fun k =>
    match scored.filter (fun p => p.1.place_id == k) with
    | [] => none
    | p :: ps =>
      some { place_id := k, name := p.1.place_name, lat := p.1.latitude,
             lng := p.1.longitude,
             similarity := groupMax ((p :: ps).map Prod.snd) })
  (sortBySimDesc results).map (fun r => { r with similarity := round4 r.similarity })

/-- Embeds the backend `search` route as a state transformer: the line
`df['similarity_score'] = similarities` assigns the per-review scores as a
column of the module-level dataframe, so the call returns both the updated
state and the response list. -/
def backendSearch (st : ServerState) (queryVec : List ℚ) :
    ServerState × List SearchResult :=
  ({ st with simCol := some (st.reviewEmbeddings.map (cosineSim queryVec)) },
   backendResults st.rows st.reviewEmbeddings queryVec)

/-- Concrete startup state for the C8 counterexample: one row, one
embedding, no `similarity_score` column yet. -/
def stExample : ServerState :=
  { rows := [{ place_id := "x".data, place_name := "X".data, latitude := 0,
               longitude := 0, review_text := [] }],
    reviewEmbeddings := [[1, 0]],
    simCol := none }

/-- C8 counterexample: the claim that `search` leaves the entity table /
index state unchanged is false — a search on the freshly started backend
writes the `similarity_score` column onto the shared dataframe, so the state
after the call differs from the state before it. -/
theorem backendSearch_mutates_state_cex : (backendSearch stExample [1, 0]).1 ≠ stExample := by
  intro h
  have h2 := congrArg ServerState.simCol h
  simp [backendSearch, stExample] at h2

/-- C8 (amended): the backend `search` is a pure function of the query and
the startup data — it never changes the entity rows or the review
embeddings, and its response ignores any previously written column — but it
does overwrite the `similarity_score` column of the shared dataframe, so
the full module state is not left unchanged. -/
theorem backendSearch_frame (st : ServerState) (queryVec queryVec2 : List ℚ) :
    (backendSearch st queryVec).1.rows = st.rows ∧
    (backendSearch st queryVec).1.reviewEmbeddings = st.reviewEmbeddings ∧
    (backendSearch st queryVec).1.simCol =
      some (st.reviewEmbeddings.map (cosineSim queryVec)) ∧
    (backendSearch st queryVec).2 = backendResults st.rows st.reviewEmbeddings queryVec ∧
    (backendSearch (backendSearch st queryVec).1 queryVec2).2 =
      backendResults st.rows st.reviewEmbeddings queryVec2 :=
  ⟨rfl, rfl, rfl, rfl, rfl⟩

/-! ## Heatmap tiler (src/demo/heatmap_service.py) -/

/-- One entry of restaurants_similarity.json. -/
structure Restaurant where
  lat : ℚ
  lng : ℚ
  similarity : ℚ
deriving DecidableEq, Repr

/-- The map bounds passed to the heatmap route. -/
structure BoundsBox where
  min_lat : ℚ
  max_lat : ℚ
  min_lng : ℚ
  max_lng : ℚ
deriving DecidableEq, Repr

/-- One tile of the dynamic grid, with the bounds used by the count
predicate, the 4-corner polygon stored by the code, the center and the
count. -/
structure HeatTile where
  tile_min_lat : ℚ
  tile_max_lat : ℚ
  tile_min_lng : ℚ
  tile_max_lng : ℚ
  bounds : List (List ℚ)
  center_lat : ℚ
  center_lng : ℚ
  count : Nat
deriving DecidableEq, Repr

/-- One heatmap point emitted for a tile with positive count. -/
structure HeatPoint where
  lat : ℚ
  lng : ℚ
  weight : Nat
deriving DecidableEq, Repr

/-- The half-open containment test of the tile count:
`tile_min_lat <= r['lat'] < tile_max_lat and tile_min_lng <= r['lng'] <
tile_max_lng`. -/
def tileContains (tminLat tmaxLat tminLng tmaxLng : ℚ) (r : Restaurant) : Bool :=
  decide (tminLat ≤ r.lat) && decide (r.lat < tmaxLat) &&
  decide (tminLng ≤ r.lng) && decide (r.lng < tmaxLng)

/-- The tile built for row `i`, column `j`. -/
def mkTile (b : BoundsBox) (latSize lngSize : ℚ) (filtered : List Restaurant)
    (i j : Nat) : HeatTile :=
  { tile_min_lat := b.min_lat + i * latSize,
    tile_max_lat := b.min_lat + (i + 1) * latSize,
    tile_min_lng := b.min_lng + j * lngSize,
    tile_max_lng := b.min_lng + (j + 1) * lngSize,
    bounds := [[b.min_lat + i * latSize, b.min_lng + j * lngSize],
               [b.min_lat + i * latSize, b.min_lng + (j + 1) * lngSize],
               [b.min_lat + (i + 1) * latSize, b.min_lng + (j + 1) * lngSize],
               [b.min_lat + (i + 1) * latSize, b.min_lng + j * lngSize]],
    center_lat := (b.min_lat + i * latSize + (b.min_lat + (i + 1) * latSize)) / 2,
    center_lng := (b.min_lng + j * lngSize + (b.min_lng + (j + 1) * lngSize)) / 2,
    count := (filtered.filter (fun r =>
      tileContains (b.min_lat + i * latSize) (b.min_lat + (i + 1) * latSize)
        (b.min_lng + j * lngSize) (b.min_lng + (j + 1) * lngSize) r)).length }

/-- Embeds `calculate_dynamic_grid_heatmap(similarity_threshold, bounds,
grid_size)`: filter by threshold, derive `tiles_per_side = int(sqrt(grid_size))`,
build the row-major tile grid with per-tile counts, and emit one heatmap
point per tile with positive count. -/
def calculate_dynamic_grid_heatmap (restaurant_data : List Restaurant)
    (similarity_threshold : ℚ) (b : BoundsBox) (grid_size : Nat) :
    List HeatPoint × List HeatTile :=
  let filtered := restaurant_data.filter (fun r => decide (similarity_threshold ≤ r.similarity))
  let tiles_per_side := Nat.sqrt grid_size
  let lat_tile_size := (b.max_lat - b.min_lat) / tiles_per_side
  let lng_tile_size := (b.max_lng - b.min_lng) / tiles_per_side
  let tiles := ((List.range tiles_per_side).map (fun i =>
    (List.range tiles_per_side).map (fun j =>
      mkTile b lat_tile_size lng_tile_size filtered i j))).flatten
  let points := (tiles.filter (fun t => decide (0 < t.count))).map
    (fun t => { lat := t.center_lat, lng := t.center_lng, weight := t.count })
  (points, tiles)

theorem length_filter_flatten {α : Type} (p : α → Bool) (L : List (List α)) :
    (L.flatten.filter p).length = (L.map (fun l => (l.filter p).length)).sum := by
  induction L with
  | nil => rfl
  | cons l rest ih =>
    rw [List.flatten_cons, List.filter_append, List.length_append, List.map_cons,
      List.sum_cons, ih]

theorem length_filter_map {α β : Type} (p : β → Bool) (f : α → β) (l : List α) :
    ((l.map f).filter p).length = (l.filter (fun a => p (f a))).length := by
  induction l with
  | nil => rfl
  | cons a rest ih =>
    rw [List.map_cons, List.filter_cons, List.filter_cons]
    by_cases h : p (f a) = true
    · rw [if_pos h, if_pos h, List.length_cons, List.length_cons, ih]
    · rw [if_neg h, if_neg h, ih]

theorem sum_map_indicator {α : Type} (p : α → Bool) (l : List α) :
    (l.map (fun a => if p a = true then 1 else 0)).sum = (l.filter p).length := by
  induction l with
  | nil => rfl
  | cons a rest ih =>
    rw [List.map_cons, List.sum_cons, List.filter_cons]
    by_cases h : p a = true
    · rw [if_pos h, if_pos h, List.length_cons, ih]
      omega
    · rw [if_neg h, if_neg h, ih, Nat.zero_add]

theorem length_filter_range_eq_one (n k : Nat) (h : k < n) :
    ((List.range n).filter (fun i => decide (i = k))).length = 1 := by
  induction n with
  | zero => omega
  | succ m ih =>
    rw [List.range_succ, List.filter_append, List.length_append]
    by_cases hk : k = m
    · subst hk
      have h0 : (List.range k).filter (fun i => decide (i = k)) = [] := by
        rw [List.filter_eq_nil_iff]
        intro a ha
        have := List.mem_range.mp ha
        simp
        omega
      rw [h0]
      simp
    · have hkm : k < m := by omega
      rw [ih hkm]
      have h0 : ([m].filter (fun i => decide (i = k))) = [] := by
        rw [List.filter_eq_nil_iff]
        intro a ha
        rw [List.mem_singleton] at ha
        subst ha
        simp
        omega
      rw [h0]
      rfl

/-- Half-open banding of one axis: when the span `[lo, hi)` is split into
`n` equal steps of size `(hi - lo) / n`, a coordinate `x` with
`lo ≤ x < hi` lies in exactly one band. -/
theorem length_filter_range_band (n : Nat) (hn : 1 ≤ n) (lo hi x : ℚ)
    (hlo : lo < hi) (h1 : lo ≤ x) (h2 : x < hi) :
    ((List.range n).filter (fun i : Nat =>
        decide (lo + (i : ℚ) * ((hi - lo) / n) ≤ x) &&
        decide (x < lo + ((i : ℚ) + 1) * ((hi - lo) / n)))).length = 1 := by
  have hnq : (0 : ℚ) < n := by
    have : (1 : ℚ) ≤ n := by exact_mod_cast hn
    linarith
  have hs : (0 : ℚ) < (hi - lo) / n := div_pos (by linarith) hnq
  set s : ℚ := (hi - lo) / n with hsdef
  have hns : (n : ℚ) * s = hi - lo := by
    rw [hsdef, mul_div_cancel₀]
    exact ne_of_gt hnq
  have hfl : (0 : ℤ) ≤ ⌊(x - lo) / s⌋ := by
    apply Int.floor_nonneg.mpr
    exact div_nonneg (by linarith) (le_of_lt hs)
  set k : Nat := (⌊(x - lo) / s⌋).toNat with hkdef
  have hkz : (k : ℤ) = ⌊(x - lo) / s⌋ := Int.toNat_of_nonneg hfl
  have hkn : k < n := by
    have hx : (x - lo) / s < (n : ℚ) := by
      rw [div_lt_iff₀ hs]
      linarith [hns]
    have := Int.floor_lt.mpr (by exact_mod_cast hx : (x - lo) / s < ((n : ℤ) : ℚ))
    omega
  have hiff : ∀ i : Nat, (lo + (i : ℚ) * s ≤ x ∧ x < lo + ((i : ℚ) + 1) * s) ↔ i = k := by
    intro i
    constructor
    · rintro ⟨ha, hb⟩
      have hfloor : ⌊(x - lo) / s⌋ = (i : ℤ) := by
        rw [Int.floor_eq_iff]
        constructor
        · rw [Int.cast_natCast, le_div_iff₀ hs]
          linarith
        · rw [div_lt_iff₀ hs]
          push_cast
          linarith
      omega
    · rintro rfl
      have hha : ((k : ℤ) : ℚ) ≤ (x - lo) / s := hkz ▸ Int.floor_le ((x - lo) / s)
      have hhb : (x - lo) / s < ((k : ℤ) : ℚ) + 1 := hkz ▸ Int.lt_floor_add_one ((x - lo) / s)
      rw [le_div_iff₀ hs] at hha
      rw [div_lt_iff₀ hs] at hhb
      constructor
      · push_cast at hha
        linarith
      · push_cast at hhb
        linarith
  have hcongr : ∀ i ∈ List.range n,
      (decide (lo + (i : ℚ) * s ≤ x) && decide (x < lo + ((i : ℚ) + 1) * s)) = decide (i = k) := by
    intro i _
    rw [← Bool.decide_and, decide_eq_decide]
    exact hiff i
  rw [List.filter_congr hcongr]
  exact length_filter_range_eq_one n k hkn

/-- C9 (amended): an entity passing the threshold filter whose coordinates
lie in the half-open viewport box (strictly below the upper bounds) is
contained in exactly one tile of the grid; half-open containment makes
interior shared edges unambiguous.  A point exactly on the viewport's
`max_lat` or `max_lng` edge is refuted separately: it lies in no tile. -/
theorem heatmap_halfopen_unique_tile (data : List Restaurant) (thr : ℚ) (b : BoundsBox)
    (grid_size : Nat) (r : Restaurant)
    (hn : 1 ≤ Nat.sqrt grid_size)
    (hlat : b.min_lat < b.max_lat) (hlng : b.min_lng < b.max_lng)
    (hr1 : b.min_lat ≤ r.lat) (hr2 : r.lat < b.max_lat)
    (hr3 : b.min_lng ≤ r.lng) (hr4 : r.lng < b.max_lng) :
    ((calculate_dynamic_grid_heatmap data thr b grid_size).2.filter (fun t =>
        tileContains t.tile_min_lat t.tile_max_lat t.tile_min_lng t.tile_max_lng r)).length
      = 1 := by
  simp only [calculate_dynamic_grid_heatmap]
  rw [length_filter_flatten, List.map_map]
  have hinner : ∀ i ∈ List.range (Nat.sqrt grid_size),
      ((fun l => (l.filter (fun t =>
              tileContains t.tile_min_lat t.tile_max_lat t.tile_min_lng t.tile_max_lng r)).length) ∘
          (fun i => (List.range (Nat.sqrt grid_size)).map (fun j =>
            mkTile b ((b.max_lat - b.min_lat) / (Nat.sqrt grid_size))
              ((b.max_lng - b.min_lng) / (Nat.sqrt grid_size))
              (data.filter (fun r2 => decide (thr ≤ r2.similarity))) i j))) i
        = if (decide (b.min_lat + (i : ℚ) * ((b.max_lat - b.min_lat) / (Nat.sqrt grid_size)) ≤ r.lat) &&
              decide (r.lat < b.min_lat + ((i : ℚ) + 1) * ((b.max_lat - b.min_lat) / (Nat.sqrt grid_size)))) = true
          then 1 else 0 := by
    intro i _
    simp only [Function.comp]
    rw [length_filter_map]
    simp only [mkTile, tileContains]
    by_cases hA : (decide (b.min_lat + (i : ℚ) * ((b.max_lat - b.min_lat) / (Nat.sqrt grid_size)) ≤ r.lat) &&
        decide (r.lat < b.min_lat + ((i : ℚ) + 1) * ((b.max_lat - b.min_lat) / (Nat.sqrt grid_size)))) = true
    · rw [if_pos hA]
      have hpt : ∀ j ∈ List.range (Nat.sqrt grid_size),
          ((decide (b.min_lat + (i : ℚ) * ((b.max_lat - b.min_lat) / (Nat.sqrt grid_size)) ≤ r.lat) &&
            decide (r.lat < b.min_lat + ((i : ℚ) + 1) * ((b.max_lat - b.min_lat) / (Nat.sqrt grid_size))) &&
            decide (b.min_lng + (j : ℚ) * ((b.max_lng - b.min_lng) / (Nat.sqrt grid_size)) ≤ r.lng)) &&
            decide (r.lng < b.min_lng + ((j : ℚ) + 1) * ((b.max_lng - b.min_lng) / (Nat.sqrt grid_size))))
            = (decide (b.min_lng + (j : ℚ) * ((b.max_lng - b.min_lng) / (Nat.sqrt grid_size)) ≤ r.lng) &&
               decide (r.lng < b.min_lng + ((j : ℚ) + 1) * ((b.max_lng - b.min_lng) / (Nat.sqrt grid_size)))) := by
        intro j _
        rw [hA, Bool.true_and]
      rw [List.filter_congr hpt]
      exact length_filter_range_band (Nat.sqrt grid_size) hn b.min_lng b.max_lng r.lng hlng hr3 hr4
    · rw [if_neg hA]
      have hempty : (List.range (Nat.sqrt grid_size)).filter (fun j : Nat =>
          (decide (b.min_lat + (i : ℚ) * ((b.max_lat - b.min_lat) / (Nat.sqrt grid_size)) ≤ r.lat) &&
            decide (r.lat < b.min_lat + ((i : ℚ) + 1) * ((b.max_lat - b.min_lat) / (Nat.sqrt grid_size))) &&
            decide (b.min_lng + (j : ℚ) * ((b.max_lng - b.min_lng) / (Nat.sqrt grid_size)) ≤ r.lng)) &&
            decide (r.lng < b.min_lng + ((j : ℚ) + 1) * ((b.max_lng - b.min_lng) / (Nat.sqrt grid_size)))) = [] := by
        rw [List.filter_eq_nil_iff]
        intro j _
        intro hcontr
        rw [Bool.and_eq_true, Bool.and_eq_true, Bool.and_eq_true] at hcontr
        exact hA (by rw [hcontr.1.1.1, hcontr.1.1.2]; rfl)
      rw [hempty]
      rfl
  rw [List.map_congr_left hinner, sum_map_indicator]
  exact length_filter_range_band (Nat.sqrt grid_size) hn b.min_lat b.max_lat r.lat hlat hr1 hr2

/-- A restaurant on the viewport's top edge (lat = max_lat), for C9. -/
def rTop : Restaurant := { lat := 1, lng := 1/4, similarity := 1 }

/-- The unit-square viewport used in the C9 instances. -/
def bUnit : BoundsBox := { min_lat := 0, max_lat := 1, min_lng := 0, max_lng := 1 }

/-- C9 counterexample: a filtered entity lying inside the (closed) viewport
exactly on a tile boundary — the top edge, which is the upper bound of the
last tile row — is counted in zero tiles, not exactly one: half-open
containment `[tile_min, tile_max)` has no tile whose lower bound is the
viewport's `max_lat`. -/
theorem heatmap_boundary_point_uncounted_cex :
    ((calculate_dynamic_grid_heatmap [rTop] 0 bUnit 4).2.map HeatTile.count).sum = 0 ∧
    (0 : ℚ) ≤ rTop.similarity ∧
    bUnit.min_lat ≤ rTop.lat ∧ rTop.lat ≤ bUnit.max_lat ∧
    bUnit.min_lng ≤ rTop.lng ∧ rTop.lng ≤ bUnit.max_lng ∧
    rTop.lat = bUnit.max_lat := by
  refine ⟨?_, by norm_num [rTop], by norm_num [rTop, bUnit], by norm_num [rTop, bUnit],
    by norm_num [rTop, bUnit], by norm_num [rTop, bUnit], by norm_num [rTop, bUnit]⟩
  norm_num [calculate_dynamic_grid_heatmap, mkTile, tileContains, rTop, bUnit,
    List.range_succ, List.filter]

/-- A restaurant on an interior shared tile edge (lat = 1/2 on a 10×10 grid
of the unit square), for the C9 witness. -/
def rMid : Restaurant := { lat := 1/2, lng := 1/4, similarity := 1 }

/-- Witness for C9 (amended): the interior-boundary point is contained in
exactly one tile of the default 100-tile grid. -/
theorem heatmap_halfopen_unique_tile_w :
    ((calculate_dynamic_grid_heatmap [rMid] 0 bUnit 100).2.filter (fun t =>
        tileContains t.tile_min_lat t.tile_max_lat t.tile_min_lng t.tile_max_lng rMid)).length
      = 1 :=
  heatmap_halfopen_unique_tile [rMid] 0 bUnit 100 rMid (by norm_num)
    (by norm_num [bUnit]) (by norm_num [bUnit]) (by norm_num [rMid, bUnit])
    (by norm_num [rMid, bUnit]) (by norm_num [rMid, bUnit]) (by norm_num [rMid, bUnit])

end SRH
